import Mathlib

/-!
Verification of the MRIQC HTML rewriter and file-serving endpoints of
`app.py` (flux-notebooks).

Shallow embedding conventions:
* An absolute filesystem path is a `List String` of its segments below the
  root, i.e. `/data/qc/mriqc` is `["data", "qc", "mriqc"]`.  (Python's
  `Path.parts` additionally carries a leading `"/"` element; that element
  never equals an ordinary segment and never starts with `"sub-"`, so it is
  irrelevant to every operation modelled here and is omitted.)
* Strings are manipulated as `List Char` internally, wrapped into `String`
  at the interfaces.
* The filesystem is modelled explicitly (`FileSys`): a list of regular
  files (with their byte content) plus a list of directories.  There are no
  symbolic links in the model, so `Path.resolve()` is lexical resolution of
  `..` segments.
* `re.sub` with the concrete patterns of the source is embedded as
  deterministic left-to-right scanners; for every pattern used in the
  source, greedy matching of `[^/]+` / `[^'"]+` / `\s*` is deterministic
  (the character class cannot match the terminator that must follow), so
  the scanners below implement exactly the regex semantics.
* Python's `str.strip` / `str.lower` / `re` character classes are embedded
  for the ASCII range (the only characters these URLs and patterns touch).
-/

namespace FluxApp

/-- Python `str.strip()` whitespace set (ASCII part). -/
def isPyWsC (c : Char) : Bool :=
  c = ' ' || c = '\t' || c = '\n' || c = '\r' || c = '\x0b' || c = '\x0c'

/-- Word characters for the regex `\b` boundary (ASCII part of `\w`). -/
def isWordChar (c : Char) : Bool :=
  c.isAlphanum || c = '_'

/-- Uppercase counterpart of a lowercase ASCII letter (identity elsewhere);
used to embed the case-insensitive comparisons of the source. -/
def upperOf (c : Char) : Char :=
  match c with
  | 'a' => 'A' | 'b' => 'B' | 'c' => 'C' | 'd' => 'D' | 'e' => 'E'
  | 'f' => 'F' | 'g' => 'G' | 'h' => 'H' | 'i' => 'I' | 'j' => 'J'
  | 'k' => 'K' | 'l' => 'L' | 'm' => 'M' | 'n' => 'N' | 'o' => 'O'
  | 'p' => 'P' | 'q' => 'Q' | 'r' => 'R' | 's' => 'S' | 't' => 'T'
  | 'u' => 'U' | 'v' => 'V' | 'w' => 'W' | 'x' => 'X' | 'y' => 'Y'
  | 'z' => 'Z' | c => c

/-- `c` matches pattern character `p` case-insensitively (`p` is a
lowercase literal from the source's prefix tuples). -/
def ciEq (c p : Char) : Bool :=
  c = p || c = upperOf p

/-- Case-insensitive `startswith` against a lowercase literal: embeds
`u.lower().startswith(lit)` for an ASCII lowercase `lit`. -/
def ciStarts : List Char → List Char → Bool
  | [], _ => true
  | _ :: _, [] => false
  | p :: ps, c :: cs => ciEq c p && ciStarts ps cs

/-- Strip trailing characters satisfying `isPyWsC`. -/
def stripRightL (l : List Char) : List Char :=
  (l.reverse.dropWhile isPyWsC).reverse

/-- Python `str.strip()` (ASCII whitespace). -/
def pyStripL (l : List Char) : List Char :=
  stripRightL (l.dropWhile isPyWsC)

/-- Literal prefix removal: `some rest` iff `s = lit ++ rest`. -/
def dropLit : List Char → List Char → Option (List Char)
  | [], s => some s
  | _ :: _, [] => none
  | p :: ps, c :: cs => if c = p then dropLit ps cs else none

/-- Case-insensitive literal prefix removal, returning the original
characters that matched together with the rest. -/
def dropLitCI : List Char → List Char → Option (List Char × List Char)
  | [], s => some ([], s)
  | _ :: _, [] => none
  | p :: ps, c :: cs =>
    if ciEq c p then (dropLitCI ps cs).map (fun pr => (c :: pr.1, pr.2)) else none

/-- Plain `startswith` on character lists. -/
def startsWithLit (lit s : List Char) : Bool :=
  (dropLit lit s).isSome

end FluxApp

namespace FluxApp

/-! ### `_is_external` (app.py line 139) and the scheme repairs (lines 172-173) -/

/-- The `startswith` tuple test of `_is_external`, applied to an
already-stripped string: embeds
`u.lower().startswith(("http://", "https://", "data:", "mailto:", "javascript:", "#"))`. -/
def extCheck (v : List Char) : Bool :=
  ciStarts "http://".data v || ciStarts "https://".data v ||
  ciStarts "data:".data v || ciStarts "mailto:".data v ||
  ciStarts "javascript:".data v || ciStarts "#".data v

/-- `_is_external` (app.py lines 139-141): strip, lowercase, test prefixes. -/
def isExternalL (u : List Char) : Bool :=
  extCheck (pyStripL u)

/-- `re.sub(r"^https:/([^/])", r"https://\1", url)` (app.py line 172). -/
def repairHttps (u : List Char) : List Char :=
  match dropLit "https:/".data u with
  | some (c :: r) => if c = '/' then u else "https://".data ++ c :: r
  | _ => u

/-- `re.sub(r"^http:/([^/])", r"http://\1", url)` (app.py line 173). -/
def repairHttp (u : List Char) : List Char :=
  match dropLit "http:/".data u with
  | some (c :: r) => if c = '/' then u else "http://".data ++ c :: r
  | _ => u

/-! ### The known-bad-prefix substitutions (app.py lines 177-180) -/

/-- Match `sub-[^/]+/` at the head: returns the token matched by `[^/]+`
and the rest after the slash.  The greedy `[^/]+` is deterministic: it must
take the maximal run of non-slash characters, after which a `/` must
follow. -/
def matchSubSeg (s : List Char) : Option (List Char × List Char) :=
  match dropLit "sub-".data s with
  | none => none
  | some r =>
    let tok := r.takeWhile (· ≠ '/')
    if tok.isEmpty then none
    else
      match dropLit ['/'] (r.dropWhile (· ≠ '/')) with
      | none => none
      | some rest => some (tok, rest)

/-- `re.sub(r"^\./sub-[^/]+/\.\./\.\./sub-[^/]+/figures/", "sub-001/figures/", url)`. -/
def badPrefixA (u : List Char) : List Char :=
  match dropLit "./".data u with
  | none => u
  | some r1 =>
    match matchSubSeg r1 with
    | none => u
    | some (_, r2) =>
      match dropLit "../../".data r2 with
      | none => u
      | some r3 =>
        match matchSubSeg r3 with
        | none => u
        | some (_, r4) =>
          match dropLit "figures/".data r4 with
          | none => u
          | some rest => "sub-001/figures/".data ++ rest

/-- `re.sub(r"^\.\./sub-[^/]+/figures/", "sub-001/figures/", url)`. -/
def badPrefixB (u : List Char) : List Char :=
  match dropLit "../".data u with
  | none => u
  | some r1 =>
    match matchSubSeg r1 with
    | none => u
    | some (_, r2) =>
      match dropLit "figures/".data r2 with
      | none => u
      | some rest => "sub-001/figures/".data ++ rest

/-- `re.sub(r"^\./sub-[^/]+/figures/", "sub-001/figures/", url)`. -/
def badPrefixC (u : List Char) : List Char :=
  match dropLit "./".data u with
  | none => u
  | some r1 =>
    match matchSubSeg r1 with
    | none => u
    | some (_, r2) =>
      match dropLit "figures/".data r2 with
      | none => u
      | some rest => "sub-001/figures/".data ++ rest

/-- `re.sub(r"^sub-[^/]+/figures/", "sub-001/figures/", url)`. -/
def badPrefixD (u : List Char) : List Char :=
  match matchSubSeg u with
  | none => u
  | some (_, r1) =>
    match dropLit "figures/".data r1 with
    | none => u
    | some rest => "sub-001/figures/".data ++ rest

/-- The four substitutions of app.py lines 177-180, applied in source
order. -/
def collapseKnownBad (u : List Char) : List Char :=
  badPrefixD (badPrefixC (badPrefixB (badPrefixA u)))

/-! ### `re.sub(r"(\.\./)+", "../", url)` (app.py line 181) -/

/-- Number of consecutive `../` groups at the head of the string. -/
def ddRun : List Char → Nat
  | '.' :: '.' :: '/' :: rest => ddRun rest + 1
  | _ => 0

/-- Skip `n` characters, then continue collapsing.  `collapseDD 0 s`
embeds `re.sub(r"(\.\./)+", "../", s)`: the scanner finds each leftmost
maximal run of `../` groups, emits a single `../`, and resumes after the
run. -/
def collapseDD : Nat → List Char → List Char
  | _, [] => []
  | k + 1, _ :: cs => collapseDD k cs
  | 0, '.' :: '.' :: '/' :: rest => '.' :: '.' :: '/' :: collapseDD (3 * ddRun rest) rest
  | 0, c :: cs => c :: collapseDD 0 cs

def collapseParentRefs (u : List Char) : List Char :=
  collapseDD 0 u

/-! ### Paths: `pathlib` joining, `resolve()`, `relative_to` -/

/-- Python `s.startswith(pre)` (defined on the character data so that it
evaluates inside the kernel). -/
def pyStartswith (s pre : String) : Bool :=
  pre.data.isPrefixOf s.data

/-- Python `s.endswith(suf)`. -/
def pyEndswith (s suf : String) : Bool :=
  suf.data.isSuffixOf s.data

/-- `s.split('/')` on character data: `acc` is the current segment,
reversed. -/
def splitSlashAux : List Char → List Char → List String
  | [], acc => [⟨acc.reverse⟩]
  | '/' :: cs, acc => ⟨acc.reverse⟩ :: splitSlashAux cs []
  | c :: cs, acc => splitSlashAux cs (c :: acc)

/-- Segments of a POSIX path string: `PurePosixPath` parsing drops empty
segments (duplicate slashes, trailing slash) and `.` segments, keeping
`..`. -/
def posixSegs (s : String) : List String :=
  (splitSlashAux s.data []).filter (fun t => t ≠ "" && t ≠ ".")

/-- `base / s` for an absolute `base` (`pathlib` `/`): an absolute right
operand replaces the base. -/
def pyJoin (base : List String) (s : String) : List String :=
  if pyStartswith s "/" then posixSegs s else base ++ posixSegs s

/-- Lexical part of `Path.resolve()` in a symlink-free filesystem:
eliminate `..` (a `..` at the root stays at the root) and `.` segments. -/
def resolveParts (segs : List String) : List String :=
  segs.foldl
    (fun acc seg =>
      if seg = ".." then acc.dropLast else if seg = "." then acc else acc ++ [seg])
    []

/-- `_normalize_duplicate_subdirs` (app.py lines 143-149): delete the first
segment of the first adjacent identical pair whose segment starts with
`sub-`, then stop.  The identical inline loop of `_rewrite_html_urls`
(lines 184-188) is this same function. -/
def normalizeDuplicateSubdirs : List String → List String
  | [] => []
  | a :: rest =>
    match rest with
    | [] => [a]
    | b :: _ =>
      if a = b && pyStartswith a "sub-" then rest
      else a :: normalizeDuplicateSubdirs rest

/-- `p.relative_to(root)` on parts: succeeds iff `root`'s segments are a
prefix of `p`'s, returning the remaining segments (pathlib raises
`ValueError` otherwise, modelled as `none`). -/
def relativeTo (p root : List String) : Option (List String) :=
  if root.isPrefixOf p then some (p.drop root.length) else none

/-- Segments joined by `/` (character-level `"/".join`). -/
def joinSegs : List String → List Char
  | [] => []
  | s :: rest =>
    match rest with
    | [] => s.data
    | _ :: _ => s.data ++ '/' :: joinSegs rest

/-- `str(path)` for an absolute path. -/
def strOfPath (p : List String) : String :=
  ⟨'/' :: joinSegs p⟩

/-- `rel.as_posix()` for the result of `relative_to` (an empty relative
path prints as `.`). -/
def relPosix (rel : List String) : String :=
  if rel.isEmpty then "." else ⟨joinSegs rel⟩

/-- `PurePosixPath(s).name`: the last parsed segment (empty for a bare
root or empty path). -/
def pyName (s : String) : String :=
  (posixSegs s).getLast?.getD ""

/-- First path segment starting with `sub-`, defaulting to `sub-001`
(app.py line 192). -/
def subjOf (htmlPath : List String) : String :=
  (htmlPath.find? (fun p => pyStartswith p "sub-")).getD "sub-001"

/-! ### Filesystem model -/

/-- Explicit filesystem: regular files with byte content, plus
directories.  No symbolic links. -/
structure FileSys where
  files : List (List String × List Nat)
  dirs : List (List String)

/-- `path.exists()`. -/
def existsFS (fs : FileSys) (p : List String) : Bool :=
  fs.files.any (fun f => f.1 = p) || fs.dirs.any (fun d => d = p)

/-- `path.is_file()`. -/
def isFileFS (fs : FileSys) (p : List String) : Bool :=
  fs.files.any (fun f => f.1 = p)

/-- Bytes of a regular file. -/
def fileBytes (fs : FileSys) (p : List String) : Option (List Nat) :=
  (fs.files.find? (fun f => f.1 = p)).map (fun f => f.2)

/-! ### The attribute regex
`_ATTR_PATTERN = r'(?P<attr>\b(?:src|href|data)\b)\s*=\s*([\'"])(?P<url>[^\'"]+)\2'`
(app.py line 165, compiled with `re.IGNORECASE`). -/

/-- One attribute match: the attribute name as it appeared (original
case), the whitespace runs around `=`, the quote character, and the URL
characters. -/
structure AttrMatch where
  attr : List Char
  ws1 : List Char
  ws2 : List Char
  quote : Char
  url : List Char
deriving DecidableEq, Repr

/-- `m.group(0)`: the exact text the pattern matched. -/
def group0 (m : AttrMatch) : List Char :=
  m.attr ++ m.ws1 ++ '=' :: (m.ws2 ++ m.quote :: (m.url ++ [m.quote]))

/-- `c` is `'` or `"`. -/
def isQuoteC (c : Char) : Bool :=
  c = '\'' || c = '"'

/-- The alternation `(?:src|href|data)` tried case-insensitively at the
head; the names start with distinct letters, so the alternation is
deterministic. -/
def matchAttrName (s : List Char) : Option (List Char × List Char) :=
  match dropLitCI "src".data s with
  | some r => some r
  | none =>
    match dropLitCI "href".data s with
    | some r => some r
    | none => dropLitCI "data".data s

/-- Try `_ATTR_PATTERN` at the head of `s` (the leading `\b` is checked by
the caller; the `\b` after the name needs no separate check because the
next matched character, whitespace or `=`, is never a word character).
Greedy `\s*` and `[^'"]+` are deterministic: each must take its maximal
run, after which a fixed character must follow.  Returns the match and the
text after it. -/
def matchAt (s : List Char) : Option (AttrMatch × List Char) :=
  match matchAttrName s with
  | none => none
  | some (name, r1) =>
    let ws1 := r1.takeWhile isPyWsC
    match r1.dropWhile isPyWsC with
    | [] => none
    | e :: r3 =>
      if e = '=' then
        let ws2 := r3.takeWhile isPyWsC
        match r3.dropWhile isPyWsC with
        | [] => none
        | q :: r5 =>
          if isQuoteC q then
            let u := r5.takeWhile (fun c => !isQuoteC c)
            match r5.dropWhile (fun c => !isQuoteC c) with
            | [] => none
            | q2 :: r6 =>
              if u ≠ [] && q2 = q then
                some (⟨name, ws1, ws2, q, u⟩, r6)
              else none
          else none
      else none

/-- A piece of the scanned document: an unmatched character or a match. -/
inductive Piece where
  | lit (c : Char)
  | mtch (m : AttrMatch)
deriving DecidableEq, Repr

/-- The scan of `_ATTR_PATTERN.sub`: left to right, attempting a match at
every position whose preceding character is not a word character (the
leading `\b`), consuming each match whole.  The `Nat` argument skips the
remainder of a match that has just been emitted; `prevW` records whether
the previous character was a word character (after a match it is the
closing quote, never a word character). -/
def attrPieces : Nat → Bool → List Char → List Piece
  | _, _, [] => []
  | k + 1, _, _ :: cs => attrPieces k false cs
  | 0, prevW, c :: cs =>
    if prevW then .lit c :: attrPieces 0 (isWordChar c) cs
    else
      match matchAt (c :: cs) with
      | some (m, rest) => .mtch m :: attrPieces (cs.length - rest.length) false cs
      | none => .lit c :: attrPieces 0 (isWordChar c) cs

/-- Original text of a piece. -/
def pieceOrig : Piece → List Char
  | .lit c => [c]
  | .mtch m => group0 m

/-- Original text of a piece list. -/
def piecesOrig (ps : List Piece) : List Char :=
  ps.foldr (fun p acc => pieceOrig p ++ acc) []

/-- The matches of a piece list. -/
def piecesMatches (ps : List Piece) : List AttrMatch :=
  ps.filterMap (fun p => match p with | .lit _ => none | .mtch m => some m)

/-- Render the scanned pieces through the replacement callback; `none`
from the callback is an uncaught Python exception, which aborts the whole
substitution. -/
def renderPieces (repl : AttrMatch → Option (List Char)) : List Piece → Option (List Char)
  | [] => some []
  | .lit c :: ps => (renderPieces repl ps).map (fun r => c :: r)
  | .mtch m :: ps =>
    match repl m with
    | none => none
    | some r => (renderPieces repl ps).map (fun rest => r ++ rest)

/-- All matches of `_ATTR_PATTERN` in a document. -/
def attrMatchesOf (text : List Char) : List AttrMatch :=
  piecesMatches (attrPieces 0 false text)

/-! ### The final cleanup `re.sub(r'(sub-[^/]+/)sub-[^/]+/', r'\1', rewritten)`
(app.py line 204).  Note the second `sub-[^/]+` is *not* a backreference:
the pattern matches any adjacent pair of `sub-*` segments, identical or
not. -/

/-- Try the cleanup pattern at the head of `s`: on success returns group 1
(`sub-` ++ first token ++ `/`) and the rest after the whole match. -/
def matchCleanupAt (s : List Char) : Option (List Char × List Char) :=
  match matchSubSeg s with
  | none => none
  | some (t1, r1) =>
    match matchSubSeg r1 with
    | none => none
    | some (_, r2) => some ("sub-".data ++ t1 ++ ['/'], r2)

/-- The scan of the cleanup substitution, with the same skip-counter
scheme as `attrPieces`. -/
def cleanupScan : Nat → List Char → List Char
  | _, [] => []
  | k + 1, _ :: cs => cleanupScan k cs
  | 0, c :: cs =>
    match matchCleanupAt (c :: cs) with
    | some (g1, rest) => g1 ++ cleanupScan (cs.length - rest.length) cs
    | none => c :: cleanupScan 0 cs

/-- `re.sub(r'(sub-[^/]+/)sub-[^/]+/', r'\1', s)`. -/
def finalCleanup (s : List Char) : List Char :=
  cleanupScan 0 s

/-- Some position of `s` matches the cleanup pattern. -/
def hasSubPair : List Char → Bool
  | [] => false
  | c :: cs => (matchCleanupAt (c :: cs)).isSome || hasSubPair cs

/-- No cleanup-pattern match starts at a position inside `pre` when the
text continues with `suf`: the scan emits all of `pre` unchanged, so an
occurrence right after `pre` is the leftmost one. -/
def noCleanupMatchIn : List Char → List Char → Bool
  | [], _ => true
  | c :: cs, suf => !(matchCleanupAt (c :: (cs ++ suf))).isSome && noCleanupMatchIn cs suf

/-! ### The replacement callback `repl` of `_rewrite_html_urls`
(app.py lines 170-201). -/

/-- The URL after strip and the two scheme repairs (lines 171-173). -/
def replUrl2 (rawUrl : List Char) : List Char :=
  repairHttp (repairHttps (pyStripL rawUrl))

/-- The URL after the known-bad-prefix collapses and the parent-reference
collapse (lines 177-181), as a string. -/
def replUrl4 (rawUrl : List Char) : String :=
  ⟨collapseParentRefs (collapseKnownBad (replUrl2 rawUrl))⟩

/-- `full` after join, resolve and the duplicate-`sub-` collapse
(lines 183-189). -/
def replFull (baseDir : List String) (rawUrl : List Char) : List String :=
  normalizeDuplicateSubdirs (resolveParts (pyJoin baseDir (replUrl4 rawUrl)))

/-- The fallback path `DATA_ROOT / subj / "figures" / Path(url).name`
(lines 192-193). -/
def replAlt (dataRoot htmlPath : List String) (rawUrl : List Char) : List String :=
  dataRoot ++ [subjOf htmlPath, "figures", pyName (replUrl4 rawUrl)]

/-- Render `attr="<url>"`. -/
def attrOut (attr url : List Char) : List Char :=
  attr ++ '=' :: '"' :: (url ++ ['"'])

/-- The `repl` callback (app.py lines 170-201).  `none` models the
uncaught `ValueError` raised by `full.relative_to(DATA_ROOT)` when the
computed path exists but lies outside the data root. -/
def replCore (fs : FileSys) (dataRoot htmlPath : List String) (m : AttrMatch) :
    Option (List Char) :=
  let baseDir := htmlPath.dropLast
  let url2 := replUrl2 m.url
  if isExternalL url2 then some (attrOut m.attr url2)
  else
    let full := replFull baseDir m.url
    if existsFS fs full then
      match relativeTo full dataRoot with
      | none => none
      | some rel => some (attrOut m.attr ("/mriqc_files/" ++ relPosix rel).data)
    else
      let alt := replAlt dataRoot htmlPath m.url
      if existsFS fs alt then
        match relativeTo alt dataRoot with
        | none => none
        | some rel => some (attrOut m.attr ("/mriqc_files/" ++ relPosix rel).data)
      else some (group0 m)

/-- `_rewrite_html_urls` (app.py lines 167-204) on character lists:
substitute every attribute match through `replCore`, then run the final
global cleanup pass.  `none` is an uncaught exception escaping the
substitution. -/
def rewriteHtmlUrlsL (fs : FileSys) (dataRoot htmlPath : List String)
    (text : List Char) : Option (List Char) :=
  (renderPieces (replCore fs dataRoot htmlPath) (attrPieces 0 false text)).map
    finalCleanup

/-- `_rewrite_html_urls` on strings. -/
def rewriteHtmlUrls (fs : FileSys) (dataRoot htmlPath : List String)
    (text : String) : Option String :=
  (rewriteHtmlUrlsL fs dataRoot htmlPath text.data).map String.mk

/-- The normalized candidate path of `_safe_full_path` (app.py lines
152-158). -/
def safeFullRaw (dataRoot : List String) (relOrAbs : String) (baseDir : List String) :
    List String :=
  normalizeDuplicateSubdirs
    (if pyStartswith relOrAbs "/mriqc_files/" then
      resolveParts (dataRoot ++
        posixSegs ⟨(relOrAbs.data.drop "/mriqc_files/".data.length).dropWhile (· = '/')⟩)
    else
      resolveParts (pyJoin baseDir relOrAbs))

/-- `_safe_full_path` (app.py lines 151-163).  Defined in the source but
called from nowhere; it returns `None` instead of raising when the
normalized path leaves the data root. -/
def safeFullPath (dataRoot : List String) (relOrAbs : String) (baseDir : List String) :
    Option (List String) :=
  match relativeTo (safeFullRaw dataRoot relOrAbs baseDir) dataRoot with
  | none => none
  | some _ => some (safeFullRaw dataRoot relOrAbs baseDir)

/-! ### UTF-8 decoding (`Path.read_text(encoding="utf-8", errors="ignore")`,
app.py line 212). -/

/-- Error policy of the Python UTF-8 decoder. -/
inductive Utf8Err where
  | ignore
  | replace
deriving DecidableEq

/-- What an error emits: nothing for `ignore`, U+FFFD for `replace`. -/
def errOut : Utf8Err → List Char
  | .ignore => []
  | .replace => [Char.ofNat 0xFFFD]

/-- Valid continuation byte. -/
def contOk (b : Nat) : Bool :=
  0x80 ≤ b && b ≤ 0xBF

/-- Valid second byte of a three-byte sequence led by `b1` (excluding
overlong forms and surrogates, as CPython does). -/
def cont3Ok (b1 b2 : Nat) : Bool :=
  if b1 = 0xE0 then 0xA0 ≤ b2 && b2 ≤ 0xBF
  else if b1 = 0xED then 0x80 ≤ b2 && b2 ≤ 0x9F
  else contOk b2

/-- Valid second byte of a four-byte sequence led by `b1`. -/
def cont4Ok (b1 b2 : Nat) : Bool :=
  if b1 = 0xF0 then 0x90 ≤ b2 && b2 ≤ 0xBF
  else if b1 = 0xF4 then 0x80 ≤ b2 && b2 ≤ 0x8F
  else contOk b2

/-- CPython's UTF-8 decoder with an error policy: an invalid start byte is
one error; a sequence whose continuation is invalid or missing is one
error consuming the valid part.  The `Nat` is recursion fuel (every step
consumes at least one byte, so `decodeUtf8` below never exhausts it). -/
def decodeUtf8Fuel (e : Utf8Err) : Nat → List Nat → List Char
  | _, [] => []
  | 0, _ :: _ => []
  | fuel + 1, b :: bs =>
    if b < 0x80 then Char.ofNat b :: decodeUtf8Fuel e fuel bs
    else if 0xC2 ≤ b && b ≤ 0xDF then
      match bs with
      | [] => errOut e
      | b2 :: bs2 =>
        if contOk b2 then
          Char.ofNat ((b - 0xC0) * 0x40 + (b2 - 0x80)) :: decodeUtf8Fuel e fuel bs2
        else errOut e ++ decodeUtf8Fuel e fuel bs
    else if 0xE0 ≤ b && b ≤ 0xEF then
      match bs with
      | [] => errOut e
      | b2 :: bs2 =>
        if cont3Ok b b2 then
          match bs2 with
          | [] => errOut e
          | b3 :: bs3 =>
            if contOk b3 then
              Char.ofNat ((b - 0xE0) * 0x1000 + (b2 - 0x80) * 0x40 + (b3 - 0x80)) ::
                decodeUtf8Fuel e fuel bs3
            else errOut e ++ decodeUtf8Fuel e fuel bs2
        else errOut e ++ decodeUtf8Fuel e fuel bs
    else if 0xF0 ≤ b && b ≤ 0xF4 then
      match bs with
      | [] => errOut e
      | b2 :: bs2 =>
        if cont4Ok b b2 then
          match bs2 with
          | [] => errOut e
          | b3 :: bs3 =>
            if contOk b3 then
              match bs3 with
              | [] => errOut e
              | b4 :: bs4 =>
                if contOk b4 then
                  Char.ofNat ((b - 0xF0) * 0x40000 + (b2 - 0x80) * 0x1000 +
                      (b3 - 0x80) * 0x40 + (b4 - 0x80)) :: decodeUtf8Fuel e fuel bs4
                else errOut e ++ decodeUtf8Fuel e fuel bs3
            else errOut e ++ decodeUtf8Fuel e fuel bs2
        else errOut e ++ decodeUtf8Fuel e fuel bs
    else errOut e ++ decodeUtf8Fuel e fuel bs

/-- `bytes.decode("utf-8", errors=...)`. -/
def decodeUtf8 (e : Utf8Err) (bs : List Nat) : List Char :=
  decodeUtf8Fuel e bs.length bs

/-! ### HTTP responses and the Flask routes (app.py lines 206-267). -/

/-- Observable outcomes of a route handler. -/
inductive HttpResult where
  | forbidden
  | notFound
  | notFoundText (msg : String)
  | htmlResponse (body : String)
  | fileResponse (path : List String)
  | serverError
deriving DecidableEq, Repr

/-- `mimetypes.guess_type(...) == "text/html"`: true exactly for the
`.html` / `.htm` extensions. -/
def guessHtml (p : List String) : Bool :=
  let name := p.getLast?.getD ""
  pyEndswith name ".html" || pyEndswith name ".htm"

/-- `_send_any_file` (app.py lines 206-215): 404 unless a regular file;
HTML files are decoded with `errors="ignore"`, rewritten, and returned as
an HTML response (a rewriter exception escapes as a server error); other
files are streamed as-is. -/
def sendAnyFile (fs : FileSys) (dataRoot full : List String) : HttpResult :=
  if !existsFS fs full || !isFileFS fs full then .notFound
  else if guessHtml full then
    let bytes := (fileBytes fs full).getD []
    match rewriteHtmlUrlsL fs dataRoot full (decodeUtf8 .ignore bytes) with
    | some out => .htmlResponse ⟨out⟩
    | none => .serverError
  else .fileResponse full

/-- The path computed by `serve_mriqc` before its confinement check:
`(DATA_ROOT / relpath).resolve()` then `_normalize_duplicate_subdirs`. -/
def mriqcFull (dataRoot : List String) (relpath : String) : List String :=
  normalizeDuplicateSubdirs (resolveParts (pyJoin dataRoot relpath))

/-- `serve_mriqc` (app.py lines 220-229). -/
def serveMriqc (fs : FileSys) (dataRoot : List String) (relpath : String) : HttpResult :=
  let full := mriqcFull dataRoot relpath
  match relativeTo full dataRoot with
  | none => .forbidden
  | some _ => sendAnyFile fs dataRoot full

/-- `serve_fmriprep` (app.py lines 242-247): join without any confinement
check; only existence decides the outcome.  The OS resolves the `..`
segments of the joined path when it is opened or `stat`-ed, which is the
`resolveParts` below (intermediate directories are assumed to exist). -/
def fmriprepFull (datasetRoot : List String) (filename : String) : List String :=
  if pyStartswith filename "/" then resolveParts (posixSegs filename)
  else resolveParts (datasetRoot ++ ["derivatives", "fmriprep"] ++ posixSegs filename)

def serveFmriprep (fs : FileSys) (datasetRoot : List String) (filename : String) :
    HttpResult :=
  let full := fmriprepFull datasetRoot filename
  if !existsFS fs full then .notFoundText ("File not found: " ++ strOfPath full)
  else .fileResponse full

/-- The resolved path of `serve_static`. -/
def staticFull (root : List String) (subpath : String) : List String :=
  resolveParts (pyJoin root subpath)

/-- `serve_static` (app.py lines 258-267): the confinement guard is the
raw string test `str(full_path).startswith(str(root))`, checked before
existence. -/
def serveStatic (fs : FileSys) (root : List String) (subpath : String) : HttpResult :=
  let full := staticFull root subpath
  if !pyStartswith (strOfPath full) (strOfPath root) then .forbidden
  else if !existsFS fs full then .notFound
  else .fileResponse full

/-! ## Specification-side definitions (written from the claims' wording,
for comparison with the source-side functions above). -/

/-- The claim's description of duplicate-subject normalization: the first
index `i` (scanning left to right) at which two adjacent segments are
identical and the first starts with `sub-`. -/
def firstDupIdx : List String → Option Nat
  | [] => none
  | a :: rest =>
    match rest with
    | [] => none
    | b :: _ =>
      if a = b && pyStartswith a "sub-" then some 0
      else (firstDupIdx rest).map (· + 1)

/-! ## Helper lemmas -/

theorem dropLit_append (lit r : List Char) : dropLit lit (lit ++ r) = some r := by
  induction lit with
  | nil => rfl
  | cons c cs ih => simp [dropLit, ih]

theorem dropLit_eq_some {lit s r : List Char} (h : dropLit lit s = some r) :
    s = lit ++ r := by
  induction lit generalizing s with
  | nil =>
    simp only [dropLit, Option.some.injEq] at h
    simp [h]
  | cons c cs ih =>
    cases s with
    | nil => simp [dropLit] at h
    | cons d ds =>
      by_cases hd : d = c
      · subst hd
        simp only [dropLit, if_pos rfl] at h
        simpa using ih h
      · simp [dropLit, hd] at h

theorem takeWhile_append_stop (p : Char → Bool) (xs : List Char) (y : Char)
    (r : List Char) (hxs : ∀ c ∈ xs, p c = true) (hy : p y = false) :
    (xs ++ y :: r).takeWhile p = xs := by
  induction xs with
  | nil => simp [List.takeWhile, hy]
  | cons c cs ih =>
    have hc : p c = true := hxs c (by simp)
    simp only [List.cons_append, List.takeWhile, hc]
    have := ih (fun d hd => hxs d (by simp [hd]))
    simp [this]

theorem dropWhile_append_stop (p : Char → Bool) (xs : List Char) (y : Char)
    (r : List Char) (hxs : ∀ c ∈ xs, p c = true) (hy : p y = false) :
    (xs ++ y :: r).dropWhile p = y :: r := by
  induction xs with
  | nil => simp [List.dropWhile, hy]
  | cons c cs ih =>
    have hc : p c = true := hxs c (by simp)
    simp only [List.cons_append, List.dropWhile, hc]
    exact ih (fun d hd => hxs d (by simp [hd]))

/-- `matchSubSeg` on a shaped input `sub-<tok>/<rest>`. -/
theorem matchSubSeg_shaped (tok rest : List Char) (hne : tok ≠ [])
    (hns : '/' ∉ tok) :
    matchSubSeg ("sub-".data ++ tok ++ '/' :: rest) = some (tok, rest) := by
  have hd : dropLit "sub-".data ("sub-".data ++ (tok ++ '/' :: rest)) =
      some (tok ++ '/' :: rest) := dropLit_append _ _
  have htk : (tok ++ '/' :: rest).takeWhile (fun c => c ≠ '/') = tok := by
    refine takeWhile_append_stop _ _ _ _ (fun c hc => ?_) (by simp)
    simp only [decide_eq_true_eq]
    exact fun h => hns (h ▸ hc)
  have hdw : (tok ++ '/' :: rest).dropWhile (fun c => c ≠ '/') = '/' :: rest := by
    refine dropWhile_append_stop _ _ _ _ (fun c hc => ?_) (by simp)
    simp only [decide_eq_true_eq]
    exact fun h => hns (h ▸ hc)
  have hassoc : "sub-".data ++ tok ++ '/' :: rest = "sub-".data ++ (tok ++ '/' :: rest) := by
    simp
  rw [matchSubSeg, hassoc, hd]
  simp only [htk, hdw]
  have : tok.isEmpty = false := by
    cases tok with
    | nil => exact absurd rfl hne
    | cons a as => rfl
  simp [this, dropLit]

theorem badPrefixA_not_dot (c : Char) (r : List Char) (h : c ≠ '.') :
    badPrefixA (c :: r) = c :: r := by
  simp [badPrefixA, dropLit, h]

theorem badPrefixB_not_dot (c : Char) (r : List Char) (h : c ≠ '.') :
    badPrefixB (c :: r) = c :: r := by
  simp [badPrefixB, dropLit, h]

theorem badPrefixC_not_dot (c : Char) (r : List Char) (h : c ≠ '.') :
    badPrefixC (c :: r) = c :: r := by
  simp [badPrefixC, dropLit, h]

/-- The fourth substitution maps the canonical form to itself. -/
theorem badPrefixD_canon (r : List Char) :
    badPrefixD ("sub-001/figures/".data ++ r) = "sub-001/figures/".data ++ r := by
  have h0 : "sub-001/figures/".data ++ r =
      "sub-".data ++ "001".data ++ '/' :: ("figures/".data ++ r) := by
    have h : "sub-001/figures/".data =
        "sub-".data ++ "001".data ++ '/' :: "figures/".data := by decide
    rw [h]; simp
  have hm : matchSubSeg ("sub-001/figures/".data ++ r) =
      some ("001".data, "figures/".data ++ r) := by
    rw [h0]
    exact matchSubSeg_shaped _ _ (by decide) (by decide)
  simp only [badPrefixD, hm, dropLit_append]

/-- The canonical replacement is a fixed point of the remaining three
substitutions, so the order of application never matters after a fire. -/
theorem collapseTail_canon (r : List Char) :
    badPrefixD (badPrefixC (badPrefixB ("sub-001/figures/".data ++ r))) =
      "sub-001/figures/".data ++ r := by
  have hc : "sub-001/figures/".data ++ r = 's' :: ("ub-001/figures/".data ++ r) := by
    have h : "sub-001/figures/".data = 's' :: "ub-001/figures/".data := by decide
    rw [h]; simp
  rw [hc, badPrefixB_not_dot _ _ (by decide), badPrefixC_not_dot _ _ (by decide), ← hc,
    badPrefixD_canon]

theorem collapseKnownBad_formA (x y rest : List Char) (hx : x ≠ []) (hy : y ≠ [])
    (hxs : '/' ∉ x) (hys : '/' ∉ y) :
    collapseKnownBad ("./sub-".data ++ x ++ "/../../sub-".data ++ y ++
      "/figures/".data ++ rest) = "sub-001/figures/".data ++ rest := by
  have e1 : "./sub-".data ++ x ++ "/../../sub-".data ++ y ++ "/figures/".data ++ rest =
      "./".data ++ ("sub-".data ++ x ++ '/' ::
        ("../../".data ++ ("sub-".data ++ y ++ '/' :: ("figures/".data ++ rest)))) := by
    have a : "./sub-".data = "./".data ++ "sub-".data := by decide
    have b : "/../../sub-".data = '/' :: ("../../".data ++ "sub-".data) := by decide
    have c : "/figures/".data = '/' :: "figures/".data := by decide
    rw [a, b, c]; simp
  have hA : badPrefixA ("./sub-".data ++ x ++ "/../../sub-".data ++ y ++
      "/figures/".data ++ rest) = "sub-001/figures/".data ++ rest := by
    rw [e1]
    simp only [badPrefixA, dropLit_append, matchSubSeg_shaped _ _ hx hxs,
      matchSubSeg_shaped _ _ hy hys]
  rw [collapseKnownBad, hA, collapseTail_canon]

theorem collapseKnownBad_formB (x rest : List Char) (hx : x ≠ []) (hxs : '/' ∉ x) :
    collapseKnownBad ("../sub-".data ++ x ++ "/figures/".data ++ rest) =
      "sub-001/figures/".data ++ rest := by
  have e1 : "../sub-".data ++ x ++ "/figures/".data ++ rest =
      "../".data ++ ("sub-".data ++ x ++ '/' :: ("figures/".data ++ rest)) := by
    have a : "../sub-".data = "../".data ++ "sub-".data := by decide
    have c : "/figures/".data = '/' :: "figures/".data := by decide
    rw [a, c]; simp
  have hA : badPrefixA ("../sub-".data ++ x ++ "/figures/".data ++ rest) =
      "../sub-".data ++ x ++ "/figures/".data ++ rest := by
    have e2 : "../sub-".data ++ x ++ "/figures/".data ++ rest =
        '.' :: '.' :: '/' :: ("sub-".data ++ x ++ "/figures/".data ++ rest) := by
      have a : "../sub-".data = '.' :: '.' :: '/' :: "sub-".data := by decide
      rw [a]; simp
    rw [e2]; simp [badPrefixA, dropLit]
  have hB : badPrefixB ("../sub-".data ++ x ++ "/figures/".data ++ rest) =
      "sub-001/figures/".data ++ rest := by
    rw [e1]
    simp only [badPrefixB, dropLit_append, matchSubSeg_shaped _ _ hx hxs]
  have hct : "sub-001/figures/".data ++ rest =
      's' :: ("ub-001/figures/".data ++ rest) := by
    have h : "sub-001/figures/".data = 's' :: "ub-001/figures/".data := by decide
    rw [h]; simp
  rw [collapseKnownBad, hA, hB, hct, badPrefixC_not_dot _ _ (by decide), ← hct,
    badPrefixD_canon]

theorem collapseKnownBad_formC (x rest : List Char) (hx : x ≠ []) (hxs : '/' ∉ x) :
    collapseKnownBad ("./sub-".data ++ x ++ "/figures/".data ++ rest) =
      "sub-001/figures/".data ++ rest := by
  have e1 : "./sub-".data ++ x ++ "/figures/".data ++ rest =
      "./".data ++ ("sub-".data ++ x ++ '/' :: ("figures/".data ++ rest)) := by
    have a : "./sub-".data = "./".data ++ "sub-".data := by decide
    have c : "/figures/".data = '/' :: "figures/".data := by decide
    rw [a, c]; simp
  have hA : badPrefixA ("./sub-".data ++ x ++ "/figures/".data ++ rest) =
      "./sub-".data ++ x ++ "/figures/".data ++ rest := by
    have hf : "figures/".data ++ rest = 'f' :: ("igures/".data ++ rest) := by
      have h : "figures/".data = 'f' :: "igures/".data := by decide
      rw [h]; simp
    have hstep : dropLit "../../".data ("figures/".data ++ rest) = none := by
      rw [hf]; simp [dropLit]
    conv_lhs => rw [e1]
    simp only [badPrefixA, dropLit_append, matchSubSeg_shaped _ _ hx hxs, hstep]
    rw [← e1]
  have hB : badPrefixB ("./sub-".data ++ x ++ "/figures/".data ++ rest) =
      "./sub-".data ++ x ++ "/figures/".data ++ rest := by
    have e2 : "./sub-".data ++ x ++ "/figures/".data ++ rest =
        '.' :: '/' :: ("sub-".data ++ x ++ "/figures/".data ++ rest) := by
      have a : "./sub-".data = '.' :: '/' :: "sub-".data := by decide
      rw [a]; simp
    rw [e2]; simp [badPrefixB, dropLit]
  have hC : badPrefixC ("./sub-".data ++ x ++ "/figures/".data ++ rest) =
      "sub-001/figures/".data ++ rest := by
    rw [e1]
    simp only [badPrefixC, dropLit_append, matchSubSeg_shaped _ _ hx hxs]
  rw [collapseKnownBad, hA, hB, hC, badPrefixD_canon]

theorem collapseKnownBad_formD (x rest : List Char) (hx : x ≠ []) (hxs : '/' ∉ x) :
    collapseKnownBad ("sub-".data ++ x ++ "/figures/".data ++ rest) =
      "sub-001/figures/".data ++ rest := by
  have e1 : "sub-".data ++ x ++ "/figures/".data ++ rest =
      "sub-".data ++ x ++ '/' :: ("figures/".data ++ rest) := by
    have c : "/figures/".data = '/' :: "figures/".data := by decide
    rw [c]; simp
  have e2 : "sub-".data ++ x ++ "/figures/".data ++ rest =
      's' :: ("ub-".data ++ x ++ "/figures/".data ++ rest) := by
    have a : "sub-".data = 's' :: "ub-".data := by decide
    rw [a]; simp
  have hD : badPrefixD ("sub-".data ++ x ++ "/figures/".data ++ rest) =
      "sub-001/figures/".data ++ rest := by
    rw [e1]
    simp only [badPrefixD, dropLit_append, matchSubSeg_shaped _ _ hx hxs]
  rw [collapseKnownBad, e2, badPrefixA_not_dot _ _ (by decide),
    badPrefixB_not_dot _ _ (by decide), badPrefixC_not_dot _ _ (by decide), ← e2, hD]

/-! ## Claim C6 -/

/-- C6: for every non-external URL beginning with one of the known
malformed relative prefixes (`./sub-X/../../sub-Y/figures/`,
`../sub-X/figures/`, `./sub-X/figures/`, or `sub-X/figures/`, for any
subject tokens X and Y), the known-bad-prefix collapse step — the four
substitutions of app.py lines 177-180 applied in that fixed order —
replaces that prefix with the literal `sub-001/figures/` regardless of
which subject X or Y names. -/
theorem claim_C6_known_bad_prefix_collapse :
    ∀ (x y rest : List Char), x ≠ [] → y ≠ [] → '/' ∉ x → '/' ∉ y →
      (collapseKnownBad ("./sub-".data ++ x ++ "/../../sub-".data ++ y ++
          "/figures/".data ++ rest) = "sub-001/figures/".data ++ rest) ∧
      (collapseKnownBad ("../sub-".data ++ x ++ "/figures/".data ++ rest) =
        "sub-001/figures/".data ++ rest) ∧
      (collapseKnownBad ("./sub-".data ++ x ++ "/figures/".data ++ rest) =
        "sub-001/figures/".data ++ rest) ∧
      (collapseKnownBad ("sub-".data ++ x ++ "/figures/".data ++ rest) =
        "sub-001/figures/".data ++ rest) := by
  intro x y rest hx hy hxs hys
  exact ⟨collapseKnownBad_formA x y rest hx hy hxs hys,
    collapseKnownBad_formB x rest hx hxs,
    collapseKnownBad_formC x rest hx hxs,
    collapseKnownBad_formD x rest hx hxs⟩

/-- Witness for C6 at subject tokens `03` and `9`. -/
theorem claim_C6_witness :
    (collapseKnownBad ("./sub-".data ++ "03".data ++ "/../../sub-".data ++ "9".data ++
        "/figures/".data ++ "a.svg".data) = "sub-001/figures/".data ++ "a.svg".data) ∧
    (collapseKnownBad ("../sub-".data ++ "03".data ++ "/figures/".data ++ "a.svg".data) =
      "sub-001/figures/".data ++ "a.svg".data) ∧
    (collapseKnownBad ("./sub-".data ++ "03".data ++ "/figures/".data ++ "a.svg".data) =
      "sub-001/figures/".data ++ "a.svg".data) ∧
    (collapseKnownBad ("sub-".data ++ "03".data ++ "/figures/".data ++ "a.svg".data) =
      "sub-001/figures/".data ++ "a.svg".data) :=
  claim_C6_known_bad_prefix_collapse "03".data "9".data "a.svg".data
    (by decide) (by decide) (by decide) (by decide)

/-! ## Claim C7 -/

/-- C7: duplicate-subject normalization removes exactly one segment at the
first position (scanning left to right) where two adjacent segments are
identical and the first starts with `sub-`, leaving all other segments in
order; with no such pair the list is unchanged; a triple duplicate loses
only one copy. -/
theorem claim_C7_duplicate_subject_normalization :
    (∀ l : List String, normalizeDuplicateSubdirs l =
        match firstDupIdx l with
        | none => l
        | some i => l.eraseIdx i) ∧
    (∀ l : List String, firstDupIdx l = none → normalizeDuplicateSubdirs l = l) ∧
    normalizeDuplicateSubdirs ["anat", "sub-007", "sub-007", "figures", "x.svg"] =
      ["anat", "sub-007", "figures", "x.svg"] ∧
    normalizeDuplicateSubdirs ["sub-007", "sub-007", "sub-007"] =
      ["sub-007", "sub-007"] := by
  have norm_cons2 : ∀ (a b : String) (rest : List String),
      normalizeDuplicateSubdirs (a :: b :: rest) =
        if a = b && pyStartswith a "sub-" then b :: rest
        else a :: normalizeDuplicateSubdirs (b :: rest) := fun _ _ _ => rfl
  have fdi_cons2 : ∀ (a b : String) (rest : List String),
      firstDupIdx (a :: b :: rest) =
        if a = b && pyStartswith a "sub-" then some 0
        else (firstDupIdx (b :: rest)).map (· + 1) := fun _ _ _ => rfl
  have main : ∀ l : List String, normalizeDuplicateSubdirs l =
      match firstDupIdx l with
      | none => l
      | some i => l.eraseIdx i := by
    intro l
    induction l with
    | nil => rfl
    | cons a l ih =>
      cases l with
      | nil => rfl
      | cons b rest =>
        rw [norm_cons2, fdi_cons2]
        by_cases h : (a = b && pyStartswith a "sub-") = true
        · rw [if_pos h, if_pos h]; rfl
        · rw [if_neg h, if_neg h, ih]
          cases firstDupIdx (b :: rest) with
          | none => rfl
          | some i => rfl
  refine ⟨main, fun l hl => ?_, by decide, by decide⟩
  rw [main l, hl]

/-- Witness for C7 on a list with no adjacent duplicate pair. -/
theorem claim_C7_witness :
    normalizeDuplicateSubdirs ["sub-007", "figures", "x.svg"] =
      ["sub-007", "figures", "x.svg"] :=
  claim_C7_duplicate_subject_normalization.2.1 ["sub-007", "figures", "x.svg"] (by decide)

/-! ## Claim C2 -/

/-- C2: for every request path parameter `relpath` of
`GET /mriqc_files/<relpath>`, if the absolute path obtained by joining
`relpath` onto the data root, resolving `..` segments, and applying
duplicate-subject normalization is not a descendant of the data root
(its segments are not an extension of the root's segments), the endpoint
responds 403 — never 200.  (The model is symlink-free, so `resolve()` is
the lexical resolution `resolveParts`.) -/
theorem claim_C2_mriqc_traversal_forbidden :
    ∀ (fs : FileSys) (dataRoot : List String) (relpath : String),
      dataRoot.isPrefixOf (mriqcFull dataRoot relpath) = false →
      serveMriqc fs dataRoot relpath = .forbidden := by
  intro fs dataRoot relpath h
  simp [serveMriqc, relativeTo, h]

/-- Witness for C2: `../../etc/passwd` escapes `/data/qc/mriqc` and is
rejected. -/
theorem claim_C2_witness :
    serveMriqc ⟨[], []⟩ ["data", "qc", "mriqc"] "../../etc/passwd" = .forbidden :=
  claim_C2_mriqc_traversal_forbidden ⟨[], []⟩ ["data", "qc", "mriqc"]
    "../../etc/passwd" (by decide)

/-! ## Claim C10 -/

/-- C10: `GET /fmriprep_files/<filename>` performs only an existence
check and no confinement check: it can never answer 403; a `..`-laden
filename reaching an existing file outside `<root>/derivatives/fmriprep`
is served (200); a missing file yields the plain-text 404 response. -/
theorem claim_C10_fmriprep_unconfined :
    (∀ (fs : FileSys) (root : List String) (filename : String),
        serveFmriprep fs root filename ≠ .forbidden) ∧
    (∀ (fs : FileSys) (root : List String) (filename : String),
        existsFS fs (fmriprepFull root filename) = false →
        serveFmriprep fs root filename =
          .notFoundText ("File not found: " ++ strOfPath (fmriprepFull root filename))) ∧
    (serveFmriprep ⟨[(["data", "secret.txt"], [])], []⟩ ["data"] "../../secret.txt" =
        .fileResponse ["data", "secret.txt"] ∧
      (["data", "derivatives", "fmriprep"].isPrefixOf ["data", "secret.txt"]) = false) := by
  refine ⟨fun fs root filename => ?_, fun fs root filename h => ?_, by decide⟩
  · simp only [serveFmriprep]
    split <;> simp
  · simp [serveFmriprep, h]

/-- Witness for C10: a missing file gives the plain-text 404. -/
theorem claim_C10_witness :
    serveFmriprep ⟨[], []⟩ ["data"] "x.html" =
      .notFoundText ("File not found: " ++ strOfPath (fmriprepFull ["data"] "x.html")) :=
  claim_C10_fmriprep_unconfined.2.1 ⟨[], []⟩ ["data"] "x.html" (by decide)

/-! ## Claim C3 -/

/-- A list prefix of a longer prefix is a prefix. -/
theorem isPrefixOf_of_append {t : List Char} :
    ∀ (x y : List Char), (x ++ y).isPrefixOf t = true → x.isPrefixOf t = true := by
  intro x
  induction x generalizing t with
  | nil => intro y _; simp [List.isPrefixOf]
  | cons c cs ih =>
    intro y h
    cases t with
    | nil => simp [List.isPrefixOf] at h
    | cons d ds =>
      simp only [List.cons_append, List.isPrefixOf, Bool.and_eq_true] at h ⊢
      exact ⟨h.1, ih y h.2⟩

/-- C3 counterexample: with dataset root `/data/foo`, the request
`/static/../foobar/x.txt` resolves into the sibling directory
`/data/foobar` — a path that is *not* under the root — yet the endpoint
serves it (200) instead of rejecting it with 403, because the guard is a
raw string-prefix test and `/data/foobar/x.txt` starts with `/data/foo`. -/
theorem claim_C3_counterexample :
    serveStatic ⟨[(["data", "foobar", "x.txt"], [])], []⟩ ["data", "foo"]
        "../foobar/x.txt" = .fileResponse ["data", "foobar", "x.txt"] ∧
    (["data", "foo"].isPrefixOf ["data", "foobar", "x.txt"]) = false := by
  decide

/-- C3 amended: `serve_static` guards with the raw string test
`str(full).startswith(str(root))`, before the existence check: a resolved
path failing the string test gets 403 whatever the filesystem contents,
while every resolved path whose string form extends `str(root) ++ "bar"` —
in particular anything inside a sibling directory whose name extends the
root's name — passes the guard and is never rejected with 403. -/
theorem claim_C3_amended_string_prefix_guard :
    (∀ (fs : FileSys) (root : List String) (subpath : String),
        pyStartswith (strOfPath (staticFull root subpath)) (strOfPath root) = false →
        serveStatic fs root subpath = .forbidden) ∧
    (∀ (fs : FileSys) (root : List String) (subpath : String),
        pyStartswith (strOfPath (staticFull root subpath))
          (strOfPath root ++ "bar") = true →
        serveStatic fs root subpath ≠ .forbidden) := by
  constructor
  · intro fs root subpath h
    simp [serveStatic, h]
  · intro fs root subpath h
    have hpre : pyStartswith (strOfPath (staticFull root subpath)) (strOfPath root) = true := by
      have hd : (strOfPath root ++ "bar").data =
          (strOfPath root).data ++ "bar".data := String.data_append _ _
      rw [pyStartswith] at h ⊢
      rw [hd] at h
      exact isPrefixOf_of_append _ _ h
    simp only [serveStatic, hpre, Bool.not_true, Bool.false_eq_true, if_false]
    split <;> simp

/-- Witness for C3's amended statement: an out-of-prefix path is rejected,
and the `/data/foobar` sibling of `/data/foo` passes the guard. -/
theorem claim_C3_amended_witness :
    serveStatic ⟨[], []⟩ ["data", "foo"] "../../etc/passwd" = .forbidden ∧
    serveStatic ⟨[(["data", "foobar", "x.txt"], [])], []⟩ ["data", "foo"]
        "../foobar/x.txt" ≠ .forbidden :=
  ⟨claim_C3_amended_string_prefix_guard.1 ⟨[], []⟩ ["data", "foo"] "../../etc/passwd"
      (by decide),
    claim_C3_amended_string_prefix_guard.2 ⟨[(["data", "foobar", "x.txt"], [])], []⟩
      ["data", "foo"] "../foobar/x.txt" (by decide)⟩

/-! ## Scanner lemmas: the substitution reproduces the input text wherever
the callback returns the matched text. -/

theorem dropLitCI_decomp :
    ∀ (lit s o r : List Char), dropLitCI lit s = some (o, r) → s = o ++ r := by
  intro lit
  induction lit with
  | nil =>
    intro s o r h
    simp only [dropLitCI, Option.some.injEq, Prod.mk.injEq] at h
    simp [← h.1, ← h.2]
  | cons p ps ih =>
    intro s o r h
    cases s with
    | nil => simp [dropLitCI] at h
    | cons c cs =>
      by_cases hc : ciEq c p = true
      · rw [dropLitCI, if_pos hc] at h
        cases h2 : dropLitCI ps cs with
        | none => rw [h2] at h; simp at h
        | some pr =>
          obtain ⟨o2, r2⟩ := pr
          rw [h2] at h
          simp at h
          rw [← h.1, ← h.2]
          simpa using ih cs o2 r2 h2
      · simp [dropLitCI, hc] at h

theorem matchAttrName_decomp {s nm r : List Char}
    (h : matchAttrName s = some (nm, r)) : s = nm ++ r := by
  rw [matchAttrName] at h
  cases h1 : dropLitCI "src".data s with
  | some v =>
    rw [h1] at h
    cases v with
    | mk o rr =>
      simp only [Option.some.injEq, Prod.mk.injEq] at h
      exact h.1 ▸ h.2 ▸ dropLitCI_decomp _ _ _ _ h1
  | none =>
    rw [h1] at h
    cases h2 : dropLitCI "href".data s with
    | some v =>
      rw [h2] at h
      cases v with
      | mk o rr =>
        simp only [Option.some.injEq, Prod.mk.injEq] at h
        exact h.1 ▸ h.2 ▸ dropLitCI_decomp _ _ _ _ h2
    | none =>
      rw [h2] at h
      simp only at h
      exact (dropLitCI_decomp _ _ _ _ h).symm ▸ rfl

theorem matchAt_decomp {s : List Char} {m : AttrMatch} {rest : List Char}
    (h : matchAt s = some (m, rest)) : s = group0 m ++ rest := by
  rw [matchAt] at h
  dsimp only at h
  split at h
  · exact absurd h (by simp)
  next nv nm r1 hn =>
    split at h
    · exact absurd h (by simp)
    next x1 e r3 hdw =>
      split at h
      next he =>
        split at h
        · exact absurd h (by simp)
        next x2 q r5 hdw2 =>
          split at h
          next hq =>
            split at h
            · exact absurd h (by simp)
            next x3 q2 r6 hdw3 =>
              split at h
              next hu =>
                simp only [Option.some.injEq, Prod.mk.injEq] at h
                obtain ⟨hm, hr⟩ := h
                have hq2 : q2 = q := by
                  have := (Bool.and_eq_true ..).mp hu
                  exact of_decide_eq_true this.2
                have hs1 : s = nm ++ r1 := matchAttrName_decomp hn
                have hr1 : r1 = r1.takeWhile isPyWsC ++ (e :: r3) := by
                  rw [← hdw]; exact (List.takeWhile_append_dropWhile ..).symm
                have hr3 : r3 = r3.takeWhile isPyWsC ++ (q :: r5) := by
                  rw [← hdw2]; exact (List.takeWhile_append_dropWhile ..).symm
                have hr5 : r5 = r5.takeWhile (fun c => !isQuoteC c) ++ (q2 :: r6) := by
                  rw [← hdw3]; exact (List.takeWhile_append_dropWhile ..).symm
                have key : s = nm ++ (r1.takeWhile isPyWsC ++ '=' ::
                    (r3.takeWhile isPyWsC ++ q ::
                      (r5.takeWhile (fun c => !isQuoteC c) ++ q :: r6))) := by
                  conv_lhs => rw [hs1, hr1, hr3, hr5, he, hq2]
                rw [key, ← hm, ← hr]
                simp [group0]
              next hu => exact absurd h (by simp)
          next hq => exact absurd h (by simp)
      next he => exact absurd h (by simp)

theorem group0_ne_nil (m : AttrMatch) : group0 m ≠ [] := by
  simp [group0]

/-- Walking the skip counter over the already-consumed part of a match
lands the scanner exactly after the match. -/
theorem attrPieces_skip :
    ∀ (t r : List Char), attrPieces t.length false (t ++ r) = attrPieces 0 false r := by
  intro t
  induction t with
  | nil => intro r; rfl
  | cons c cs ih =>
    intro r
    simpa [attrPieces] using ih r

/-- The pieces of the attribute scan concatenate back to the input. -/
theorem piecesOrig_cons (p : Piece) (ps : List Piece) :
    piecesOrig (p :: ps) = pieceOrig p ++ piecesOrig ps := rfl

/-- The pieces of the attribute scan concatenate back to the input. -/
theorem piecesOrig_attrPieces :
    ∀ (n : Nat) (s : List Char) (b : Bool), s.length ≤ n →
      piecesOrig (attrPieces 0 b s) = s := by
  intro n
  induction n with
  | zero =>
    intro s b hlen
    have : s = [] := List.eq_nil_of_length_eq_zero (Nat.le_zero.mp hlen)
    subst this; rfl
  | succ n ih =>
    intro s b hlen
    cases s with
    | nil => rfl
    | cons c cs =>
      have hcs : cs.length ≤ n := by simp at hlen; omega
      cases b with
      | true =>
        rw [show attrPieces 0 true (c :: cs) =
            .lit c :: attrPieces 0 (isWordChar c) cs from rfl]
        rw [piecesOrig_cons, ih cs (isWordChar c) hcs]
        rfl
      | false =>
        cases hm : matchAt (c :: cs) with
        | none =>
          rw [show attrPieces 0 false (c :: cs) =
              (match matchAt (c :: cs) with
               | some (m, rest) =>
                 .mtch m :: attrPieces (cs.length - rest.length) false cs
               | none => .lit c :: attrPieces 0 (isWordChar c) cs) from rfl, hm]
          rw [piecesOrig_cons, ih cs (isWordChar c) hcs]
          rfl
        | some v =>
          obtain ⟨m, rest⟩ := v
          have hdec : c :: cs = group0 m ++ rest := matchAt_decomp hm
          cases hg : group0 m with
          | nil => exact absurd hg (group0_ne_nil m)
          | cons c0 g2 =>
            rw [hg] at hdec
            have hc0 : c = c0 := by simpa using congrArg (fun l => l.headD c) hdec
            have hcs2 : cs = g2 ++ rest := by
              simpa using congrArg List.tail hdec
            have hrestlen : rest.length ≤ n := by
              have : rest.length ≤ cs.length := by
                rw [hcs2]; simp
              exact Nat.le_trans this hcs
            have hskip : cs.length - rest.length = g2.length := by
              rw [hcs2]; simp
            rw [show attrPieces 0 false (c :: cs) =
                (match matchAt (c :: cs) with
                 | some (m, rest) =>
                   .mtch m :: attrPieces (cs.length - rest.length) false cs
                 | none => .lit c :: attrPieces 0 (isWordChar c) cs) from rfl, hm]
            rw [piecesOrig_cons, hskip]
            conv_lhs => rw [hcs2]
            rw [attrPieces_skip g2 rest, ih rest false hrestlen]
            rw [show pieceOrig (.mtch m) = group0 m from rfl, hg, hc0]
            simp [hcs2]

/-- If the callback returns the matched text on every match of the piece
list, rendering returns the original text. -/
theorem renderPieces_id (repl : AttrMatch → Option (List Char)) :
    ∀ ps : List Piece, (∀ m ∈ piecesMatches ps, repl m = some (group0 m)) →
      renderPieces repl ps = some (piecesOrig ps) := by
  intro ps
  induction ps with
  | nil => intro _; rfl
  | cons p ps ih =>
    intro h
    cases p with
    | lit c =>
      have hh : ∀ m ∈ piecesMatches ps, repl m = some (group0 m) := fun m2 hm2 =>
        h m2 (by rw [show piecesMatches (.lit c :: ps) = piecesMatches ps from rfl]
                 exact hm2)
      simp [renderPieces, ih hh, piecesOrig, pieceOrig]
    | mtch m =>
      have hm : repl m = some (group0 m) :=
        h m (by rw [show piecesMatches (.mtch m :: ps) = m :: piecesMatches ps from rfl]
                exact List.mem_cons_self ..)
      have hh : ∀ m2 ∈ piecesMatches ps, repl m2 = some (group0 m2) := fun m2 hm2 =>
        h m2 (by rw [show piecesMatches (.mtch m :: ps) = m :: piecesMatches ps from rfl]
                 exact List.mem_cons_of_mem _ hm2)
      simp [renderPieces, hm, ih hh, piecesOrig, pieceOrig]

/-- A text with no occurrence of the cleanup pattern is left unchanged by
the final cleanup pass. -/
theorem finalCleanup_id :
    ∀ s : List Char, hasSubPair s = false → cleanupScan 0 s = s := by
  intro s
  induction s with
  | nil => intro _; rfl
  | cons c cs ih =>
    intro h
    simp only [hasSubPair, Bool.or_eq_false_iff] at h
    have hnone : matchCleanupAt (c :: cs) = none :=
      Option.not_isSome_iff_eq_none.mp (by simp [h.1])
    simp [cleanupScan, hnone, ih h.2]

/-- Master identity: if the callback leaves every attribute match
unchanged and the text has no `sub-X/sub-Y/` occurrence, the whole rewrite
is the identity. -/
theorem rewriteHtmlUrlsL_id (fs : FileSys) (dataRoot htmlPath : List String)
    (text : List Char)
    (hm : ∀ m ∈ attrMatchesOf text, replCore fs dataRoot htmlPath m = some (group0 m))
    (hs : hasSubPair text = false) :
    rewriteHtmlUrlsL fs dataRoot htmlPath text = some text := by
  rw [rewriteHtmlUrlsL, renderPieces_id _ _ hm,
    piecesOrig_attrPieces text.length text false (Nat.le_refl _)]
  simp [finalCleanup, finalCleanup_id text hs]

/-! ## Claim C8 -/

/-- Walking the skip counter over the consumed part of a cleanup match
lands the scanner exactly after the match. -/
theorem cleanupScan_skip :
    ∀ (t r : List Char), cleanupScan t.length (t ++ r) = cleanupScan 0 r := by
  intro t
  induction t with
  | nil => intro r; rfl
  | cons c cs ih => intro r; simpa [cleanupScan] using ih r

/-- The cleanup pattern matches the shape `sub-<a>/sub-<b>/<rest>` for
*any* nonempty slash-free tokens `a` and `b`, capturing `sub-<a>/` as
group 1 and leaving `rest`. -/
theorem matchCleanupAt_shaped (a b rest : List Char) (ha : a ≠ []) (has : '/' ∉ a)
    (hb : b ≠ []) (hbs : '/' ∉ b) :
    matchCleanupAt ("sub-".data ++ a ++ '/' :: ("sub-".data ++ b ++ '/' :: rest)) =
      some ("sub-".data ++ a ++ ['/'], rest) := by
  simp only [matchCleanupAt,
    matchSubSeg_shaped a ("sub-".data ++ b ++ '/' :: rest) ha has,
    matchSubSeg_shaped b rest hb hbs]

/-- One scan step at a non-matching position copies the character. -/
theorem cleanupScan_cons_none {c : Char} {cs : List Char}
    (h : matchCleanupAt (c :: cs) = none) :
    cleanupScan 0 (c :: cs) = c :: cleanupScan 0 cs := by
  simp only [cleanupScan, h]

/-- General collapse: for any tokens `a`, `b` (nonempty, slash-free) and
any preceding text `pre` in which no match starts, the scan copies `pre`,
replaces the leftmost occurrence `sub-<a>/sub-<b>/` by `sub-<a>/`, and
resumes (non-overlapping) on the remainder. -/
theorem cleanup_collapse_occurrence :
    ∀ (pre a b rest : List Char), a ≠ [] → b ≠ [] → '/' ∉ a → '/' ∉ b →
      noCleanupMatchIn pre
        ("sub-".data ++ a ++ '/' :: ("sub-".data ++ b ++ '/' :: rest)) = true →
      cleanupScan 0 (pre ++ ("sub-".data ++ a ++ '/' :: ("sub-".data ++ b ++ '/' :: rest))) =
        pre ++ ("sub-".data ++ a ++ '/' :: cleanupScan 0 rest) := by
  intro pre
  induction pre with
  | nil =>
    intro a b rest ha hb has hbs _
    have hmatch := matchCleanupAt_shaped a b rest ha has hb hbs
    have hshape : "sub-".data ++ a ++ '/' :: ("sub-".data ++ b ++ '/' :: rest) =
        's' :: ("ub-".data ++ a ++ '/' :: ("sub-".data ++ b ++ '/' :: rest)) := by
      rw [show "sub-".data = 's' :: "ub-".data from by decide]
      simp
    have hmatch2 : matchCleanupAt
        ('s' :: ("ub-".data ++ a ++ '/' :: ("sub-".data ++ b ++ '/' :: rest))) =
        some ("sub-".data ++ a ++ ['/'], rest) := by
      rw [← hshape]; exact hmatch
    have htail : "ub-".data ++ a ++ '/' :: ("sub-".data ++ b ++ '/' :: rest) =
        ("ub-".data ++ a ++ ['/'] ++ "sub-".data ++ b ++ ['/']) ++ rest := by
      simp
    have hlen : ("ub-".data ++ a ++ '/' :: ("sub-".data ++ b ++ '/' :: rest)).length -
        rest.length = ("ub-".data ++ a ++ ['/'] ++ "sub-".data ++ b ++ ['/']).length := by
      rw [htail]; simp; omega
    rw [List.nil_append, hshape]
    simp only [cleanupScan, hmatch2]
    rw [hlen, htail, cleanupScan_skip]
    simp
  | cons c cs ih =>
    intro a b rest ha hb has hbs hno
    rw [noCleanupMatchIn, Bool.and_eq_true] at hno
    have hnone : matchCleanupAt
        (c :: (cs ++ ("sub-".data ++ a ++ '/' :: ("sub-".data ++ b ++ '/' :: rest)))) =
        none := by
      cases hv : matchCleanupAt
          (c :: (cs ++ ("sub-".data ++ a ++ '/' :: ("sub-".data ++ b ++ '/' :: rest)))) with
      | none => rfl
      | some v => rw [hv] at hno; simp at hno
    have ih2 := ih a b rest ha hb has hbs hno.2
    show cleanupScan 0
        (c :: (cs ++ ("sub-".data ++ a ++ '/' :: ("sub-".data ++ b ++ '/' :: rest)))) =
      c :: (cs ++ ("sub-".data ++ a ++ '/' :: cleanupScan 0 rest))
    rw [cleanupScan_cons_none hnone, ih2]

/-- C8 counterexample: the final global cleanup pass collapses the
adjacent pair `sub-001/sub-002/` whose two subject tokens differ — the
claim says such an occurrence is left unchanged.  The document has no
`src`/`href`/`data` attribute, so the change comes from the final pass
alone. -/
theorem claim_C8_counterexample :
    rewriteHtmlUrls ⟨[], []⟩ ["data", "qc", "mriqc"] ["data", "qc", "mriqc", "r.html"]
        "<p>sub-001/sub-002/x</p>" = some "<p>sub-001/x</p>" ∧
    ("<p>sub-001/x</p>" : String) ≠ "<p>sub-001/sub-002/x</p>" := by
  decide

/-- C8 amended: the final cleanup pass `re.sub(r'(sub-[^/]+/)sub-[^/]+/',
r'\1', ...)` collapses each (leftmost, non-overlapping) occurrence of
`sub-A/sub-B/` to `sub-A/` for **any** subject tokens, identical or not,
and leaves a text with no such occurrence unchanged: a text with no
occurrence is returned byte-identically; and for any tokens `a`, `b`
(nonempty, slash-free, as matched by `[^/]+`), any preceding text in
which no match starts, and any remainder, the occurrence collapses to
`sub-<a>/` with the scan resuming after it. -/
theorem claim_C8_amended_cleanup_any_pair :
    (∀ s : List Char, hasSubPair s = false → finalCleanup s = s) ∧
    (∀ (pre a b rest : List Char), a ≠ [] → b ≠ [] → '/' ∉ a → '/' ∉ b →
        noCleanupMatchIn pre
          ("sub-".data ++ a ++ '/' :: ("sub-".data ++ b ++ '/' :: rest)) = true →
        finalCleanup (pre ++ ("sub-".data ++ a ++ '/' :: ("sub-".data ++ b ++ '/' :: rest))) =
          pre ++ ("sub-".data ++ a ++ '/' :: finalCleanup rest)) ∧
    finalCleanup "sub-001/sub-002/x".data = "sub-001/x".data ∧
    finalCleanup "sub-007/sub-007/f".data = "sub-007/f".data :=
  ⟨fun s h => finalCleanup_id s h,
   fun pre a b rest ha hb has hbs hno =>
     cleanup_collapse_occurrence pre a b rest ha hb has hbs hno,
   by decide, by decide⟩

/-- Witness for C8's amended statement: a pair-free text is unchanged,
and a differing-token occurrence after an inert prefix collapses. -/
theorem claim_C8_amended_witness :
    finalCleanup "<body>sub-001/figures/x.svg</body>".data =
      "<body>sub-001/figures/x.svg</body>".data ∧
    finalCleanup ("<p>".data ++ ("sub-".data ++ "01".data ++ '/' ::
        ("sub-".data ++ "02".data ++ '/' :: "x.svg".data))) =
      "<p>".data ++ ("sub-".data ++ "01".data ++ '/' :: finalCleanup "x.svg".data) :=
  ⟨claim_C8_amended_cleanup_any_pair.1 _ (by decide),
   claim_C8_amended_cleanup_any_pair.2.1 "<p>".data "01".data "02".data "x.svg".data
     (by decide) (by decide) (by decide) (by decide) (by decide)⟩

/-! ## Strip and scheme-repair lemmas (for claims C4 and C5) -/

theorem dropWhile_idem (p : Char → Bool) :
    ∀ l : List Char, (l.dropWhile p).dropWhile p = l.dropWhile p := by
  intro l
  induction l with
  | nil => rfl
  | cons c cs ih =>
    by_cases hp : p c = true
    · simp [List.dropWhile_cons, hp, ih]
    · simp [List.dropWhile_cons, hp]

theorem dropWhile_head_false (p : Char → Bool) :
    ∀ (l : List Char) (c : Char) (t : List Char),
      l.dropWhile p = c :: t → p c = false := by
  intro l
  induction l with
  | nil => intro c t h; simp [List.dropWhile] at h
  | cons a as ih =>
    intro c t h
    by_cases hp : p a = true
    · rw [List.dropWhile_cons, if_pos hp] at h
      exact ih c t h
    · rw [List.dropWhile_cons, if_neg hp] at h
      obtain ⟨rfl, -⟩ := List.cons.injEq .. ▸ h
      simpa using hp

theorem dropWhile_append_last (p : Char → Bool) (c : Char) (hc : p c = false) :
    ∀ xs : List Char, (xs ++ [c]).dropWhile p =
      if (xs.dropWhile p).isEmpty then [c] else xs.dropWhile p ++ [c] := by
  intro xs
  induction xs with
  | nil => simp [List.dropWhile, hc]
  | cons a as ih =>
    by_cases hp : p a = true
    · simp only [List.cons_append, List.dropWhile_cons, hp, if_true, ih]
    · simp [List.dropWhile_cons, hp]

theorem stripRight_cons (c : Char) (t : List Char) (hc : isPyWsC c = false) :
    stripRightL (c :: t) = c :: stripRightL t := by
  rw [stripRightL, stripRightL, List.reverse_cons, dropWhile_append_last _ _ hc]
  by_cases he : (t.reverse.dropWhile isPyWsC).isEmpty = true
  · rw [if_pos he]
    have : t.reverse.dropWhile isPyWsC = [] := by
      cases hd : t.reverse.dropWhile isPyWsC with
      | nil => rfl
      | cons x xs => rw [hd] at he; simp at he
    simp [this]
  · rw [if_neg he]
    simp

theorem stripRight_idem (t : List Char) : stripRightL (stripRightL t) = stripRightL t := by
  rw [stripRightL, stripRightL, List.reverse_reverse, dropWhile_idem]

theorem pyStrip_cons (c : Char) (t : List Char) (hc : isPyWsC c = false) :
    pyStripL (c :: t) = c :: stripRightL t := by
  rw [pyStripL, List.dropWhile_cons, if_neg (by simp [hc]), stripRight_cons c t hc]

theorem pyStrip_idem (l : List Char) : pyStripL (pyStripL l) = pyStripL l := by
  cases hd : l.dropWhile isPyWsC with
  | nil =>
    have h1 : pyStripL l = [] := by rw [pyStripL, hd]; rfl
    rw [h1]; rfl
  | cons c t =>
    have hc : isPyWsC c = false := dropWhile_head_false _ l c t hd
    have h1 : pyStripL l = c :: stripRightL t := by
      rw [pyStripL, hd, stripRight_cons c t hc]
    rw [h1, pyStrip_cons c (stripRightL t) hc, stripRight_idem]

/-- `extCheck` fails on any string starting with a slash. -/
theorem extCheck_slash (t : List Char) : extCheck ('/' :: t) = false := rfl

theorem repairHttps_slash (t : List Char) : repairHttps ('/' :: t) = '/' :: t := rfl

theorem repairHttp_slash (t : List Char) : repairHttp ('/' :: t) = '/' :: t := rfl

theorem repairHttps_ext (u : List Char) (h : extCheck u = true) : repairHttps u = u := by
  rw [repairHttps]
  cases hm : dropLit "https:/".data u with
  | none => rfl
  | some v =>
    cases v with
    | nil => rfl
    | cons c r =>
      by_cases hc : c = '/'
      · simp [hc]
      · exfalso
        have hu : u = "https:/".data ++ c :: r := dropLit_eq_some hm
        have hu2 : u = 'h' :: 't' :: 't' :: 'p' :: 's' :: ':' :: '/' :: c :: r := hu
        rw [hu2] at h
        have p1 : "http://".data = ['h', 't', 't', 'p', ':', '/', '/'] := by decide
        have p2 : "https://".data = ['h', 't', 't', 'p', 's', ':', '/', '/'] := by decide
        have p3 : "data:".data = ['d', 'a', 't', 'a', ':'] := by decide
        have p4 : "mailto:".data = ['m', 'a', 'i', 'l', 't', 'o', ':'] := by decide
        have p5 : "javascript:".data = ['j', 'a', 'v', 'a', 's', 'c', 'r', 'i', 'p', 't', ':'] := by decide
        have p6 : "#".data = ['#'] := by decide
        simp [extCheck, ciStarts, ciEq, upperOf, hc, p1, p2, p3, p4, p5, p6] at h

theorem repairHttp_ext (u : List Char) (h : extCheck u = true) : repairHttp u = u := by
  rw [repairHttp]
  cases hm : dropLit "http:/".data u with
  | none => rfl
  | some v =>
    cases v with
    | nil => rfl
    | cons c r =>
      by_cases hc : c = '/'
      · simp [hc]
      · exfalso
        have hu : u = "http:/".data ++ c :: r := dropLit_eq_some hm
        have hu2 : u = 'h' :: 't' :: 't' :: 'p' :: ':' :: '/' :: c :: r := hu
        rw [hu2] at h
        have p1 : "http://".data = ['h', 't', 't', 'p', ':', '/', '/'] := by decide
        have p2 : "https://".data = ['h', 't', 't', 'p', 's', ':', '/', '/'] := by decide
        have p3 : "data:".data = ['d', 'a', 't', 'a', ':'] := by decide
        have p4 : "mailto:".data = ['m', 'a', 'i', 'l', 't', 'o', ':'] := by decide
        have p5 : "javascript:".data = ['j', 'a', 'v', 'a', 's', 'c', 'r', 'i', 'p', 't', ':'] := by decide
        have p6 : "#".data = ['#'] := by decide
        simp [extCheck, ciStarts, ciEq, upperOf, hc, p1, p2, p3, p4, p5, p6] at h

/-! ## Claim C4 -/

/-- C4 counterexample: a single-quoted external anchor attribute is
re-emitted with double quotes — the output is not byte-for-byte identical
to the input. -/
theorem claim_C4_counterexample :
    rewriteHtmlUrls ⟨[], []⟩ ["data"] ["data", "r.html"] "<a href='#top'>z</a>" =
      some "<a href=\"#top\">z</a>" ∧
    ("<a href=\"#top\">z</a>" : String) ≠ "<a href='#top'>z</a>" := by
  decide

/-- C4 amended: for every attribute match whose URL is external after
trimming and case-insensitive prefix comparison, the replacement callback
emits `attr="<trimmed url>"` — the attribute name's original bytes, the
URL trimmed of surrounding whitespace and otherwise byte-identical, but
with normalized double quotes and no whitespace around `=`; so the
occurrence is byte-for-byte unchanged exactly when it already has that
shape. -/
theorem claim_C4_amended_external_requote :
    ∀ (fs : FileSys) (dataRoot htmlPath : List String) (m : AttrMatch),
      isExternalL m.url = true →
      replCore fs dataRoot htmlPath m = some (attrOut m.attr (pyStripL m.url)) := by
  intro fs dataRoot htmlPath m h
  have h0 : extCheck (pyStripL m.url) = true := h
  have hu2 : replUrl2 m.url = pyStripL m.url := by
    rw [replUrl2, repairHttps_ext _ h0, repairHttp_ext _ h0]
  have hext3 : isExternalL (pyStripL m.url) = true := by
    rw [isExternalL, pyStrip_idem]
    exact h0
  simp [replCore, hu2, hext3]

/-- Witness for C4's amended statement: a single-quoted `href='#a'` match
is re-emitted double-quoted. -/
theorem claim_C4_amended_witness :
    replCore ⟨[], []⟩ ["data"] ["data", "r.html"]
        ⟨"href".data, [], [], '\'', "#a".data⟩ =
      some (attrOut "href".data (pyStripL "#a".data)) :=
  claim_C4_amended_external_requote ⟨[], []⟩ ["data"] ["data", "r.html"] _ (by decide)

/-! ## Claim C5 -/

/-- C5 counterexample: a document whose only attribute is already in
canonical `/mriqc_files/<relative-path>` form is *not* rewritten to
itself: `/mriqc_files/sub-001/figures/x.svg` does not exist as a
filesystem path, so the subject/figures fallback fires and redirects the
link to the document's own subject `sub-002`. -/
theorem claim_C5_counterexample :
    rewriteHtmlUrls ⟨[(["data", "qc", "mriqc", "sub-002", "figures", "x.svg"], [])], []⟩
        ["data", "qc", "mriqc"] ["data", "qc", "mriqc", "sub-002", "report.html"]
        "<img src=\"/mriqc_files/sub-001/figures/x.svg\">" =
      some "<img src=\"/mriqc_files/sub-002/figures/x.svg\">" ∧
    ("<img src=\"/mriqc_files/sub-002/figures/x.svg\">" : String) ≠
      "<img src=\"/mriqc_files/sub-001/figures/x.svg\">" := by
  decide

/-- C5 amended: rewriting is the identity on a document all of whose
attribute matches carry a canonical `/mriqc_files/...` URL (after
trimming) such that neither the path computed from the URL nor the
subject/figures fallback path exists — i.e. the resolver falls through to
the leave-unchanged case — provided the text contains no adjacent
`sub-X/sub-Y/` pair for the final cleanup pass to collapse.  The
counterexample shows the unamended claim fails precisely when the
fallback target exists. -/
theorem claim_C5_amended_idempotence :
    ∀ (fs : FileSys) (dataRoot htmlPath : List String) (text : List Char),
      (∀ m ∈ attrMatchesOf text,
          startsWithLit "/mriqc_files/".data (pyStripL m.url) = true ∧
          existsFS fs (replFull htmlPath.dropLast m.url) = false ∧
          existsFS fs (replAlt dataRoot htmlPath m.url) = false) →
      hasSubPair text = false →
      rewriteHtmlUrlsL fs dataRoot htmlPath text = some text := by
  intro fs dataRoot htmlPath text hmatches hsub
  refine rewriteHtmlUrlsL_id fs dataRoot htmlPath text (fun m hm => ?_) hsub
  obtain ⟨hstart, hfull, halt⟩ := hmatches m hm
  rw [startsWithLit] at hstart
  cases hdl : dropLit "/mriqc_files/".data (pyStripL m.url) with
  | none => rw [hdl] at hstart; simp at hstart
  | some r =>
    have heq : pyStripL m.url = "/mriqc_files/".data ++ r := dropLit_eq_some hdl
    have hcons : pyStripL m.url = '/' :: ("mriqc_files/".data ++ r) := by
      rw [heq, show "/mriqc_files/".data = '/' :: "mriqc_files/".data from by decide]
      simp
    have hu2 : replUrl2 m.url = '/' :: ("mriqc_files/".data ++ r) := by
      rw [replUrl2, hcons, repairHttps_slash, repairHttp_slash]
    have hext : isExternalL (replUrl2 m.url) = false := by
      rw [hu2, isExternalL, pyStrip_cons _ _ (by decide)]
      exact extCheck_slash _
    simp [replCore, hext, hfull, halt]

/-- Witness for C5's amended statement: a canonical document over an
empty filesystem is rewritten to itself. -/
theorem claim_C5_amended_witness :
    rewriteHtmlUrlsL ⟨[], []⟩ ["data", "qc", "mriqc"]
        ["data", "qc", "mriqc", "sub-001", "report.html"]
        "<img src=\"/mriqc_files/sub-001/figures/x.svg\">".data =
      some "<img src=\"/mriqc_files/sub-001/figures/x.svg\">".data :=
  claim_C5_amended_idempotence ⟨[], []⟩ ["data", "qc", "mriqc"]
    ["data", "qc", "mriqc", "sub-001", "report.html"] _ (by decide) (by decide)

/-! ## Claim C1 -/

/-- C1: the repository's own `_safe_full_path` helper realizes the
claimed contract — every path it returns is a descendant of the data
root, and out-of-root paths are signalled by `None` — but the HTML
rewriter does not use it: its callback calls
`full.relative_to(DATA_ROOT)` unguarded, so a URL whose joined and
normalized path lies outside the data root *and exists* makes the
rewriter raise `ValueError` (modelled as `none`) instead of producing one
of the claimed outcomes.  Failing input: an HTML report at
`/data/qc/mriqc/report.html` containing `src="/etc/passwd"` with
`/etc/passwd` existing. -/
theorem claim_C1_confinement_code_bug :
    (∀ (dataRoot : List String) (relOrAbs : String) (baseDir p : List String),
        safeFullPath dataRoot relOrAbs baseDir = some p →
        dataRoot.isPrefixOf p = true) ∧
    rewriteHtmlUrls ⟨[(["etc", "passwd"], [])], []⟩ ["data", "qc", "mriqc"]
      ["data", "qc", "mriqc", "report.html"] "<img src=\"/etc/passwd\">" = none := by
  constructor
  · intro dataRoot u b p h
    rw [safeFullPath] at h
    cases hrel : relativeTo (safeFullRaw dataRoot u b) dataRoot with
    | none => rw [hrel] at h; exact absurd h (by simp)
    | some rel =>
      rw [hrel] at h
      have hp : p = safeFullRaw dataRoot u b := by
        simpa using h.symm
      rw [relativeTo] at hrel
      by_cases hpre : dataRoot.isPrefixOf (safeFullRaw dataRoot u b) = true
      · rw [hp]; exact hpre
      · rw [if_neg hpre] at hrel
        exact absurd hrel (by simp)
  · decide

/-- Witness for C1: the helper's returned path is inside the root on a
resolvable input. -/
theorem claim_C1_witness :
    (["d"] : List String).isPrefixOf ["d", "x"] = true :=
  claim_C1_confinement_code_bug.1 ["d"] "x" ["d"] ["d", "x"] (by decide)

/-! ## Claim C9 -/

theorem fileBytes_isFile {fs : FileSys} {p : List String} {bytes : List Nat}
    (h : fileBytes fs p = some bytes) : isFileFS fs p = true := by
  rw [fileBytes] at h
  cases hf : fs.files.find? (fun f => f.1 = p) with
  | none => rw [hf] at h; exact absurd h (by simp)
  | some f0 =>
    have hmem := List.mem_of_find?_eq_some hf
    have hpred := List.find?_some hf
    rw [isFileFS]
    exact List.any_eq_true.mpr ⟨f0, hmem, hpred⟩

/-- C9 counterexample: an HTML file whose bytes are not valid UTF-8 is
decoded with `errors="ignore"`: the invalid byte `0xFF` is *dropped*, not
replaced — the served body is `<p>AB</p>`, while decoding by replacement
would give `<p>A\uFFFDB</p>`. -/
theorem claim_C9_counterexample :
    sendAnyFile
        ⟨[(["data", "qc", "mriqc", "r.html"],
           [60, 112, 62, 65, 255, 66, 60, 47, 112, 62])], []⟩
        ["data", "qc", "mriqc"] ["data", "qc", "mriqc", "r.html"] =
      .htmlResponse "<p>AB</p>" ∧
    String.mk (decodeUtf8 .replace [60, 112, 62, 65, 255, 66, 60, 47, 112, 62]) =
      "<p>A\uFFFDB</p>" ∧
    ("<p>AB</p>" : String) ≠ "<p>A\uFFFDB</p>" := by
  decide

/-- C9 amended: serving an existing HTML file always succeeds in decoding
— the bytes are decoded with `errors="ignore"` (undecodable bytes
*dropped*, not replaced), the result is passed through the rewriter, and
the response carries the HTML content type (a rewriter exception is the
only failure mode, and it is unrelated to decoding). -/
theorem claim_C9_amended_decode_ignore :
    ∀ (fs : FileSys) (dataRoot p : List String) (bytes : List Nat),
      fileBytes fs p = some bytes → guessHtml p = true →
      sendAnyFile fs dataRoot p =
        (match rewriteHtmlUrlsL fs dataRoot p (decodeUtf8 .ignore bytes) with
         | some out => .htmlResponse ⟨out⟩
         | none => .serverError) := by
  intro fs dataRoot p bytes hb hg
  have hfile : isFileFS fs p = true := fileBytes_isFile hb
  have hex : existsFS fs p = true := by
    rw [isFileFS] at hfile
    rw [existsFS, hfile]
    rfl
  simp [sendAnyFile, hex, hfile, hg, hb]

/-- Witness for C9's amended statement on a concrete invalid-UTF-8 file. -/
theorem claim_C9_amended_witness :
    sendAnyFile ⟨[(["r.html"], [60, 112, 62, 65, 255, 66, 60, 47, 112, 62])], []⟩
        ["data"] ["r.html"] =
      (match rewriteHtmlUrlsL ⟨[(["r.html"], [60, 112, 62, 65, 255, 66, 60, 47, 112, 62])], []⟩
          ["data"] ["r.html"]
          (decodeUtf8 .ignore [60, 112, 62, 65, 255, 66, 60, 47, 112, 62]) with
       | some out => .htmlResponse ⟨out⟩
       | none => .serverError) :=
  claim_C9_amended_decode_ignore ⟨[(["r.html"], [60, 112, 62, 65, 255, 66, 60, 47, 112, 62])], []⟩
    ["data"] ["r.html"] [60, 112, 62, 65, 255, 66, 60, 47, 112, 62] (by decide) (by decide)

end FluxApp